import Mathlib

/-!
Shallow embedding of the `nu_plugin_explore` core state machine
(`src/app.rs` plus the components it calls), together with proofs about
its navigation, peeking and editing transitions.
-/

namespace Explore

/-- A path member, from `nu_protocol::ast::PathMember` as used by `app.rs`
(`Int { val, span, optional }` / `String { val, span, optional }`); the
`span` field is presentation metadata ignored by equality and dropped here. -/
inductive PathMember where
  | int (val : Nat) (optional : Bool)
  | string (val : String) (optional : Bool)
deriving DecidableEq, Repr

/-- The value tree, from `nu_protocol::Value` restricted to the variants the
program manipulates (records are the parallel `cols`/`vals` representation the
source matches on); spans are dropped. `cellPath` is the path-as-data variant
produced by the peeking `cell_path` sub-key. -/
inductive Value where
  | nothing
  | bool (b : Bool)
  | int (i : Int)
  | string (s : String)
  | list (vals : List Value)
  | record (cols : List String) (vals : List Value)
  | cellPath (members : List PathMember)

/-- The type tag used by the `can only edit string cells` error message
(`Value::get_type` rendered with `Display`). -/
def Value.type_string : Value → String
  | .nothing => "nothing"
  | .bool _ => "bool"
  | .int _ => "int"
  | .string _ => "string"
  | .list _ => "list"
  | .record _ _ => "record"
  | .cellPath _ => "cell-path"

/-- Look a key up in a record given as parallel column/value lists. -/
def record_lookup : List String → List Value → String → Option Value
  | c :: cs, v :: vs, k => if c = k then some v else record_lookup cs vs k
  | _, _, _ => none

/-- Modelled from the spec: one step of §4.1 `resolve` (the body of
`nu_protocol`'s `Value::follow_cell_path`, which is not under `src/`):
`Index(i)` requires a List with `i` in range, `Key(k)` requires a Record
containing `k`, anything else fails. -/
def follow_one : Value → PathMember → Option Value
  | .list vals, .int i _ => vals[i]?
  | .record cols vals, .string k _ => record_lookup cols vals k
  | _, _ => none

/-- Modelled from the spec: §4.1 `resolve(tree, path)` /
`Value::follow_cell_path` (not under `src/`): follow each member from the
root, failing on the first member that does not resolve. -/
def follow_cell_path (v : Value) : List PathMember → Option Value
  | [] => some v
  | m :: rest =>
    match follow_one v m with
    | some v' => follow_cell_path v' rest
    | none => none

/-- The application mode, from `app.rs` (`Mode`). -/
inductive Mode where
  | Normal
  | Insert
  | Peeking
  | Bottom
deriving DecidableEq, Repr

/-- Modelled from the spec: §4.3 Scalar Editor state (`edit.rs` is not under
`src/`): a character buffer and a cursor position.  The display width only
affects rendering and is omitted. -/
structure Editor where
  buffer : List Char
  cursor : Nat
deriving DecidableEq, Repr

def Editor.default : Editor := ⟨[], 0⟩

/-- Modelled from the spec: §4.3 `from_value` (`edit.rs` is not under `src/`):
buffer initialized from the string's characters, cursor at the end. -/
def Editor.from_value : Value → Editor
  | .string s => ⟨s.toList, s.toList.length⟩
  | _ => Editor.default

/-- A key event, from `console::Key` restricted to the classes the spec's
§4.3 editor recognizes plus arbitrary other chords. -/
inductive Key where
  | char (c : Char)
  | enter
  | backspace
  | delete
  | arrowLeft
  | arrowRight
  | home
  | endKey
  | esc
  | other (n : Nat)
deriving DecidableEq, Repr

/-- Modelled from the spec: §4.3 `handle_key` (`edit.rs` is not under `src/`).
Returns the updated editor and, as in the source's
`Option<(Mode, Option<Value>)>`, `none` for an editing action,
`some (Normal, none)` for cancel and `some (Normal, some value)` for commit.
Cursor moves clamp to the buffer bounds. -/
def Editor.handle_key (e : Editor) (key : Key) : Editor × Option (Mode × Option Value) :=
  match key with
  | .char c =>
    (⟨e.buffer.take e.cursor ++ [c] ++ e.buffer.drop e.cursor, e.cursor + 1⟩, none)
  | .backspace =>
    if e.cursor = 0 then (e, none)
    else (⟨e.buffer.take (e.cursor - 1) ++ e.buffer.drop e.cursor, e.cursor - 1⟩, none)
  | .delete =>
    (⟨e.buffer.take e.cursor ++ e.buffer.drop (e.cursor + 1), e.cursor⟩, none)
  | .arrowLeft => (⟨e.buffer, e.cursor - 1⟩, none)
  | .arrowRight => (⟨e.buffer, min (e.cursor + 1) e.buffer.length⟩, none)
  | .home => (⟨e.buffer, 0⟩, none)
  | .endKey => (⟨e.buffer, e.buffer.length⟩, none)
  | .enter => (e, some (Mode.Normal, some (Value.string (String.mk e.buffer))))
  | .esc => (e, some (Mode.Normal, none))
  | .other _ => (e, none)

/-- The complete application state, from `app.rs` (`App`); `cell_path` is the
`members` list of the source's `CellPath`. -/
structure App where
  cell_path : List PathMember
  mode : Mode
  editor : Editor
deriving DecidableEq, Repr

/-- `App::default`: empty path, Normal mode, default editor. -/
def App.default : App := ⟨[], Mode.Normal, Editor.default⟩

/-- `App::from_value`: start on the first child of a list or record (with an
`optional` placeholder when the container is empty), or the whole tree for
anything else. -/
def App.from_value : Value → App
  | .list vals => { App.default with cell_path := [.int 0 vals.isEmpty] }
  | .record cols _ =>
    { App.default with cell_path := [.string (cols.headD "") cols.isEmpty] }
  | _ => App.default

/-- `App::is_at_bottom`. -/
def App.is_at_bottom (app : App) : Bool := app.mode = Mode.Bottom

/-- `App::hit_bottom`. -/
def App.hit_bottom (app : App) : App := { app with mode := Mode.Bottom }

/-- `App::enter_editor`. -/
def App.enter_editor (app : App) (value : Value) : App :=
  { app with mode := Mode.Insert, editor := Editor.from_value value }

/-- `navigation::Direction`. -/
inductive Direction where
  | Up
  | Down
deriving DecidableEq, Repr

/-- The position of a key among a record's columns (first occurrence), used by
the sibling cycle to locate the current member among its siblings. -/
def index_of_key : List String → String → Option Nat
  | [], _ => none
  | c :: cs, k => if c = k then some 0 else (index_of_key cs k).map (· + 1)

/-- Modelled from the spec: §4.2 sibling cycle, `navigation::go_up_or_down_in_data`
(`navigation.rs` is not under `src/`).  Resolve the parent (all-but-last
members), list the sibling selectors, find the position of the last member
among them, and move to the previous/next position modulo the sibling count;
no-op while Bottom, when the parent has at most one child, or when the last
member has no position among the siblings. -/
def go_up_or_down_in_data (app : App) (value : Value) (direction : Direction) : App :=
  if app.is_at_bottom then app
  else
    match app.cell_path.getLast? with
    | none => app
    | some last =>
      match follow_cell_path value app.cell_path.dropLast with
      | none => app
      | some parent =>
        match parent, last with
        | .list vals, .int i _ =>
          if vals.length ≤ 1 then app
          else if i < vals.length then
            { app with cell_path := app.cell_path.dropLast ++
                [.int (match direction with
                  | .Up => (i + (vals.length - 1)) % vals.length
                  | .Down => (i + 1) % vals.length) false] }
          else app
        | .record cols _, .string k _ =>
          if cols.length ≤ 1 then app
          else
            match index_of_key cols k with
            | none => app
            | some p =>
              { app with cell_path := app.cell_path.dropLast ++
                  [.string (cols.getD (match direction with
                    | .Up => (p + (cols.length - 1)) % cols.length
                    | .Down => (p + 1) % cols.length) "") false] }
        | _, _ => app

/-- Modelled from the spec: §4.2 descend, `navigation::go_deeper_in_data`
(`navigation.rs` is not under `src/`).  No-op while Bottom; otherwise resolve
the node at the current path: a non-empty List appends `Index(0)`, a non-empty
Record appends `Key(first_key)`, a scalar or empty container leaves the path
unchanged and enters Bottom. -/
def go_deeper_in_data (app : App) (value : Value) : App :=
  if app.is_at_bottom then app
  else
    match follow_cell_path value app.cell_path with
    | none => app
    | some current =>
      match current with
      | .list vals =>
        if vals.isEmpty then app.hit_bottom
        else { app with cell_path := app.cell_path ++ [.int 0 false] }
      | .record cols _ =>
        if cols.isEmpty then app.hit_bottom
        else { app with cell_path := app.cell_path ++ [.string (cols.getD 0 "") false] }
      | _ => app.hit_bottom

/-- Modelled from the spec: §4.2 ascend, `navigation::go_back_in_data`
(`navigation.rs` is not under `src/`).  While Bottom, clear the flag without
altering the path; otherwise pop the last member when the path is longer than
one, and no-op at a top-level selector. -/
def go_back_in_data (app : App) : App :=
  if app.is_at_bottom then { app with mode := Mode.Normal }
  else if 1 < app.cell_path.length then { app with cell_path := app.cell_path.dropLast }
  else app

/-- `config::Config` navigation keybindings (the config loader is not under
`src/`; only the key fields `transition_state` compares against are kept). -/
structure NavigationBindings where
  up : Key
  down : Key
  left : Key
  right : Key
deriving DecidableEq, Repr

/-- `config::Config` peeking keybindings. -/
structure PeekingBindings where
  all : Key
  view : Key
  under : Key
  cell_path : Key
deriving DecidableEq, Repr

/-- `config::Config` top-level keybindings. -/
structure Keybindings where
  quit : Key
  insert : Key
  normal : Key
  peek : Key
  navigation : NavigationBindings
  peeking : PeekingBindings
deriving DecidableEq, Repr

/-- `config::Config` restricted to the keybinding table. -/
structure Config where
  keybindings : Keybindings
deriving DecidableEq, Repr

/-- All twelve logical actions are bound to pairwise distinct chords — the §6
input-boundary assumption ("No two actions reachable from the same mode should
alias to the same chord", strengthened to all pairs). -/
def Keybindings.distinct (kb : Keybindings) : Prop :=
  [kb.quit, kb.insert, kb.normal, kb.peek,
   kb.navigation.up, kb.navigation.down, kb.navigation.left, kb.navigation.right,
   kb.peeking.all, kb.peeking.view, kb.peeking.under, kb.peeking.cell_path].Nodup

instance (kb : Keybindings) : Decidable kb.distinct := by
  unfold Keybindings.distinct; infer_instance

/-- `app.rs` `TransitionResult`. -/
inductive TransitionResult where
  | Quit
  | Continue
  | Return (v : Value)
  | Edit (v : Value)
  | Error (msg : String)

/-- The code `transition_state` falls through to after the key-dispatch chain:
the Peeking sub-key block, then the Insert editor delegation, then the final
`Continue`.  `none` models an error propagated by `?`. -/
def transition_fallthrough (key : Key) (config : Config) (app : App) (value : Value) :
    Option (App × TransitionResult) :=
  if app.mode = Mode.Peeking then
    if key = config.keybindings.normal then
      some ({ app with mode := Mode.Normal }, TransitionResult.Continue)
    else if key = config.keybindings.peeking.all then
      some (app, TransitionResult.Return value)
    else if key = config.keybindings.peeking.view then
      match follow_cell_path value app.cell_path.dropLast with
      | some v =>
        some ({ app with cell_path := app.cell_path.dropLast }, TransitionResult.Return v)
      | none => none
    else if key = config.keybindings.peeking.under then
      match follow_cell_path value app.cell_path with
      | some v => some (app, TransitionResult.Return v)
      | none => none
    else if key = config.keybindings.peeking.cell_path then
      some (app, TransitionResult.Return (Value.cellPath app.cell_path))
    else some (app, TransitionResult.Continue)
  else if app.mode = Mode.Insert then
    match app.editor.handle_key key with
    | (e, some (mode, some v)) =>
      some ({ app with editor := e, mode := mode }, TransitionResult.Edit v)
    | (e, some (mode, none)) =>
      some ({ app with editor := e, mode := mode }, TransitionResult.Continue)
    | (e, none) => some ({ app with editor := e }, TransitionResult.Continue)
  else some (app, TransitionResult.Continue)

/-- `app.rs` `transition_state`: the `if`/`else if` chain on the pressed key,
each arm guarded by the current mode, falling through to the Peeking/Insert
blocks when no arm returns.  The returned `App` is the mutated state; `none`
models a `ShellError` propagated by `?` or the `unwrap` panic in the insert
branch (both are failed path resolutions). -/
def transition_state (key : Key) (config : Config) (app : App) (value : Value) :
    Option (App × TransitionResult) :=
  if key = config.keybindings.quit then
    if app.mode ≠ Mode.Insert then some (app, TransitionResult.Quit)
    else transition_fallthrough key config app value
  else if key = config.keybindings.insert then
    if app.mode = Mode.Normal then
      match follow_cell_path value app.cell_path with
      | none => none
      | some v =>
        match v with
        | .string s => some (app.enter_editor (.string s), TransitionResult.Continue)
        | x =>
          some (app, TransitionResult.Error
            ("can only edit string cells, found " ++ x.type_string))
    else transition_fallthrough key config app value
  else if key = config.keybindings.normal then
    if app.mode = Mode.Insert then
      some ({ app with mode := Mode.Normal }, TransitionResult.Continue)
    else transition_fallthrough key config app value
  else if key = config.keybindings.navigation.down then
    if app.mode = Mode.Normal then
      some (go_up_or_down_in_data app value Direction.Down, TransitionResult.Continue)
    else transition_fallthrough key config app value
  else if key = config.keybindings.navigation.up then
    if app.mode = Mode.Normal then
      some (go_up_or_down_in_data app value Direction.Up, TransitionResult.Continue)
    else transition_fallthrough key config app value
  else if key = config.keybindings.navigation.right then
    if app.mode = Mode.Normal then
      some (go_deeper_in_data app value, TransitionResult.Continue)
    else transition_fallthrough key config app value
  else if key = config.keybindings.navigation.left then
    if app.mode = Mode.Normal then
      some (go_back_in_data app, TransitionResult.Continue)
    else if app.is_at_bottom then
      some ({ app with mode := Mode.Normal }, TransitionResult.Continue)
    else transition_fallthrough key config app value
  else if key = config.keybindings.peek then
    if app.mode = Mode.Normal then
      some ({ app with mode := Mode.Peeking }, TransitionResult.Continue)
    else if app.is_at_bottom then
      match follow_cell_path value app.cell_path with
      | some v => some (app, TransitionResult.Return v)
      | none => none
    else transition_fallthrough key config app value
  else transition_fallthrough key config app value

/-- `k` applications of the `down` sibling-cycle step on a fixed tree. -/
def downs (value : Value) : Nat → App → App
  | 0, app => app
  | k + 1, app => downs value k (go_up_or_down_in_data app value Direction.Down)

/-- A node with no children to descend into: any non-container, or an empty
list/record (the condition under which `go_deeper_in_data` hits Bottom). -/
def Value.is_scalar_or_empty : Value → Bool
  | .list vals => vals.isEmpty
  | .record cols _ => cols.isEmpty
  | _ => true

/-- States reachable from `App::from_value` by `transition_state` steps (with
any keys and any keybinding table) on a fixed value tree. -/
inductive Reachable (value : Value) : App → Prop where
  | init : Reachable value (App.from_value value)
  | step {app app' : App} {r : TransitionResult} (key : Key) (config : Config)
      (h : Reachable value app)
      (hs : transition_state key config app value = some (app', r)) :
      Reachable value app'

/-- The Bottom-mode invariant: while in Bottom, the current path resolves to a
scalar or an empty container. -/
def BottomInv (value : Value) (app : App) : Prop :=
  app.mode = Mode.Bottom →
    ∃ v, follow_cell_path value app.cell_path = some v ∧ v.is_scalar_or_empty = true

/-- The record fixture from the `app.rs` test module:
`{l: ["my", "list", "elements"], r: {a: 1, b: 2}, s: "some string", i: 123}`. -/
def test_value : Value :=
  .record ["l", "r", "s", "i"]
    [.list [.string "my", .string "list", .string "elements"],
     .record ["a", "b"] [.int 1, .int 2],
     .string "some string",
     .int 123]

/-- A concrete keybinding table with pairwise distinct chords. -/
def test_config : Config :=
  ⟨⟨.char 'q', .char 'i', .esc, .char 'p',
    ⟨.char 'k', .char 'j', .char 'h', .char 'l'⟩,
    ⟨.char 'a', .char 'v', .char 'u', .char 'c'⟩⟩⟩

/-! ### Disequalities extracted from `Keybindings.distinct` -/

/-- The twelve bound chords in a canonical order. -/
def Keybindings.keys (kb : Keybindings) : List Key :=
  [kb.quit, kb.insert, kb.normal, kb.peek,
   kb.navigation.up, kb.navigation.down, kb.navigation.left, kb.navigation.right,
   kb.peeking.all, kb.peeking.view, kb.peeking.under, kb.peeking.cell_path]

theorem distinct_keys_nodup (kb : Keybindings) (h : kb.distinct) : kb.keys.Nodup := h

theorem distinct_ne (kb : Keybindings) (h : kb.distinct) (i j : Fin 12) (hij : i ≠ j) :
    kb.keys.get i ≠ kb.keys.get j :=
  fun e => hij ((distinct_keys_nodup kb h).get_inj_iff.mp e)

theorem distinct_insert (kb : Keybindings) (h : kb.distinct) : kb.insert ≠ kb.quit :=
  distinct_ne kb h 1 0 (by decide)

theorem distinct_down (kb : Keybindings) (h : kb.distinct) :
    kb.navigation.down ≠ kb.quit ∧ kb.navigation.down ≠ kb.insert ∧
    kb.navigation.down ≠ kb.normal :=
  ⟨distinct_ne kb h 5 0 (by decide), distinct_ne kb h 5 1 (by decide),
   distinct_ne kb h 5 2 (by decide)⟩

theorem distinct_up (kb : Keybindings) (h : kb.distinct) :
    kb.navigation.up ≠ kb.quit ∧ kb.navigation.up ≠ kb.insert ∧
    kb.navigation.up ≠ kb.normal ∧ kb.navigation.up ≠ kb.navigation.down :=
  ⟨distinct_ne kb h 4 0 (by decide), distinct_ne kb h 4 1 (by decide),
   distinct_ne kb h 4 2 (by decide), distinct_ne kb h 4 5 (by decide)⟩

theorem distinct_right (kb : Keybindings) (h : kb.distinct) :
    kb.navigation.right ≠ kb.quit ∧ kb.navigation.right ≠ kb.insert ∧
    kb.navigation.right ≠ kb.normal ∧ kb.navigation.right ≠ kb.navigation.down ∧
    kb.navigation.right ≠ kb.navigation.up :=
  ⟨distinct_ne kb h 7 0 (by decide), distinct_ne kb h 7 1 (by decide),
   distinct_ne kb h 7 2 (by decide), distinct_ne kb h 7 5 (by decide),
   distinct_ne kb h 7 4 (by decide)⟩

theorem distinct_left (kb : Keybindings) (h : kb.distinct) :
    kb.navigation.left ≠ kb.quit ∧ kb.navigation.left ≠ kb.insert ∧
    kb.navigation.left ≠ kb.normal ∧ kb.navigation.left ≠ kb.navigation.down ∧
    kb.navigation.left ≠ kb.navigation.up ∧ kb.navigation.left ≠ kb.navigation.right :=
  ⟨distinct_ne kb h 6 0 (by decide), distinct_ne kb h 6 1 (by decide),
   distinct_ne kb h 6 2 (by decide), distinct_ne kb h 6 5 (by decide),
   distinct_ne kb h 6 4 (by decide), distinct_ne kb h 6 7 (by decide)⟩

theorem distinct_peek (kb : Keybindings) (h : kb.distinct) :
    kb.peek ≠ kb.quit ∧ kb.peek ≠ kb.insert ∧ kb.peek ≠ kb.normal ∧
    kb.peek ≠ kb.navigation.down ∧ kb.peek ≠ kb.navigation.up ∧
    kb.peek ≠ kb.navigation.right ∧ kb.peek ≠ kb.navigation.left :=
  ⟨distinct_ne kb h 3 0 (by decide), distinct_ne kb h 3 1 (by decide),
   distinct_ne kb h 3 2 (by decide), distinct_ne kb h 3 5 (by decide),
   distinct_ne kb h 3 4 (by decide), distinct_ne kb h 3 7 (by decide),
   distinct_ne kb h 3 6 (by decide)⟩

theorem distinct_view (kb : Keybindings) (h : kb.distinct) :
    kb.peeking.view ≠ kb.quit ∧ kb.peeking.view ≠ kb.insert ∧
    kb.peeking.view ≠ kb.normal ∧ kb.peeking.view ≠ kb.navigation.down ∧
    kb.peeking.view ≠ kb.navigation.up ∧ kb.peeking.view ≠ kb.navigation.right ∧
    kb.peeking.view ≠ kb.navigation.left ∧ kb.peeking.view ≠ kb.peek ∧
    kb.peeking.view ≠ kb.peeking.all :=
  ⟨distinct_ne kb h 9 0 (by decide), distinct_ne kb h 9 1 (by decide),
   distinct_ne kb h 9 2 (by decide), distinct_ne kb h 9 5 (by decide),
   distinct_ne kb h 9 4 (by decide), distinct_ne kb h 9 7 (by decide),
   distinct_ne kb h 9 6 (by decide), distinct_ne kb h 9 3 (by decide),
   distinct_ne kb h 9 8 (by decide)⟩

theorem distinct_under (kb : Keybindings) (h : kb.distinct) :
    kb.peeking.under ≠ kb.quit ∧ kb.peeking.under ≠ kb.insert ∧
    kb.peeking.under ≠ kb.normal ∧ kb.peeking.under ≠ kb.navigation.down ∧
    kb.peeking.under ≠ kb.navigation.up ∧ kb.peeking.under ≠ kb.navigation.right ∧
    kb.peeking.under ≠ kb.navigation.left ∧ kb.peeking.under ≠ kb.peek ∧
    kb.peeking.under ≠ kb.peeking.all ∧ kb.peeking.under ≠ kb.peeking.view :=
  ⟨distinct_ne kb h 10 0 (by decide), distinct_ne kb h 10 1 (by decide),
   distinct_ne kb h 10 2 (by decide), distinct_ne kb h 10 5 (by decide),
   distinct_ne kb h 10 4 (by decide), distinct_ne kb h 10 7 (by decide),
   distinct_ne kb h 10 6 (by decide), distinct_ne kb h 10 3 (by decide),
   distinct_ne kb h 10 8 (by decide), distinct_ne kb h 10 9 (by decide)⟩

/-! ### Lemmas about path resolution -/

theorem follow_cell_path_append (v : Value) (p q : List PathMember) :
    follow_cell_path v (p ++ q) =
      match follow_cell_path v p with
      | some w => follow_cell_path w q
      | none => none := by
  induction p generalizing v with
  | nil => rfl
  | cons m rest ih =>
    simp only [List.cons_append, follow_cell_path]
    cases follow_one v m with
    | none => rfl
    | some v' => exact ih v'

theorem follow_cell_path_prefix_isSome (v : Value) (p q : List PathMember)
    (h : (follow_cell_path v (p ++ q)).isSome) : (follow_cell_path v p).isSome := by
  rw [follow_cell_path_append] at h
  cases hp : follow_cell_path v p with
  | none => rw [hp] at h; exact absurd h (by simp)
  | some w => simp

theorem follow_cell_path_dropLast_isSome (v w : Value) (p : List PathMember)
    (h : follow_cell_path v p = some w) :
    (follow_cell_path v p.dropLast).isSome := by
  rcases eq_or_ne p [] with rfl | hne
  · simp [follow_cell_path]
  · apply follow_cell_path_prefix_isSome v p.dropLast [p.getLast hne]
    rw [List.dropLast_append_getLast hne, h]
    simp

/-! ### The claims -/

/-- **C10**: `App::from_value` always starts in Normal mode with a path of depth
at most 1: `Index(0, optional := false)` for a non-empty list,
`Key(first key, optional := false)` for a non-empty record, the empty path for
every scalar, and the optional placeholders `Index(0, optional := true)` /
`Key("", optional := true)` for the empty list and the empty record. -/
theorem C10_from_value_initial_state (value : Value) :
    (App.from_value value).mode = Mode.Normal ∧
    (App.from_value value).cell_path.length ≤ 1 ∧
    (∀ v vs, value = .list (v :: vs) →
      (App.from_value value).cell_path = [.int 0 false]) ∧
    (value = .list [] → (App.from_value value).cell_path = [.int 0 true]) ∧
    (∀ c cs vals, value = .record (c :: cs) vals →
      (App.from_value value).cell_path = [.string c false]) ∧
    (∀ vals, value = .record [] vals →
      (App.from_value value).cell_path = [.string "" true]) ∧
    ((∀ vs, value ≠ .list vs) → (∀ cs vals, value ≠ .record cs vals) →
      (App.from_value value).cell_path = []) := by
  refine ⟨?_, ?_, ?_, ?_, ?_, ?_, ?_⟩
  · cases value <;> rfl
  · cases value <;> simp [App.from_value, App.default]
  · rintro v vs rfl; rfl
  · rintro rfl; rfl
  · rintro c cs vals rfl; rfl
  · rintro vals rfl; rfl
  · intro h1 h2
    cases value with
    | list vs => exact absurd rfl (h1 vs)
    | record cs vals => exact absurd rfl (h2 cs vals)
    | nothing => rfl
    | bool b => rfl
    | int i => rfl
    | string s => rfl
    | cellPath m => rfl

/-- Witness for C10 at the empty record. -/
theorem C10_witness :
    (App.from_value (Value.record [] [])).cell_path = [PathMember.string "" true] :=
  (C10_from_value_initial_state (Value.record [] [])).2.2.2.2.2.1 [] rfl

/-- **C2**: in Normal mode the insert key enters Insert with the editor
initialized from the selected string and returns `Continue` when the node at
`cell_path` is a string, and returns
`Error("can only edit string cells, found <type>")` with the state unchanged
when it is any other type. -/
theorem C2_insert_key (key : Key) (config : Config) (app : App) (value : Value)
    (hd : config.keybindings.distinct) (hk : key = config.keybindings.insert)
    (hm : app.mode = Mode.Normal) :
    (∀ s, follow_cell_path value app.cell_path = some (.string s) →
      transition_state key config app value =
        some ({ app with mode := Mode.Insert, editor := Editor.from_value (.string s) },
          TransitionResult.Continue)) ∧
    (∀ v, follow_cell_path value app.cell_path = some v → (∀ s, v ≠ .string s) →
      transition_state key config app value =
        some (app, TransitionResult.Error
          ("can only edit string cells, found " ++ v.type_string))) := by
  subst hk
  have h1 := distinct_insert config.keybindings hd
  constructor
  · intro s hf
    unfold transition_state
    rw [if_neg h1, if_pos rfl, if_pos hm, hf]
    rfl
  · intro v hf hns
    unfold transition_state
    rw [if_neg h1, if_pos rfl, if_pos hm, hf]
    cases v with
    | string s => exact absurd rfl (hns s)
    | nothing => rfl
    | bool b => rfl
    | int i => rfl
    | list vs => rfl
    | record cs vals => rfl
    | cellPath m => rfl

/-- Witness for C2: pressing `i` on the string at `.s` enters Insert. -/
theorem C2_witness :
    transition_state (Key.char 'i') test_config
        ⟨[PathMember.string "s" false], Mode.Normal, Editor.default⟩ test_value =
      some (⟨[PathMember.string "s" false], Mode.Insert,
        Editor.from_value (Value.string "some string")⟩, TransitionResult.Continue) :=
  (C2_insert_key (Key.char 'i') test_config
    ⟨[PathMember.string "s" false], Mode.Normal, Editor.default⟩ test_value
    (by decide) rfl rfl).1 "some string" rfl

/-- **C3**: the peek key in Bottom mode immediately returns the resolved leaf
with the app state untouched (so Peeking is never entered), while in Normal
mode it switches to Peeking and returns `Continue`. -/
theorem C3_peek_key (key : Key) (config : Config) (app : App) (value : Value)
    (hd : config.keybindings.distinct) (hk : key = config.keybindings.peek) :
    (∀ v, app.mode = Mode.Bottom → follow_cell_path value app.cell_path = some v →
      transition_state key config app value = some (app, TransitionResult.Return v)) ∧
    (app.mode = Mode.Normal →
      transition_state key config app value =
        some ({ app with mode := Mode.Peeking }, TransitionResult.Continue)) := by
  subst hk
  obtain ⟨p1, p2, p3, p4, p5, p6, p7⟩ := distinct_peek config.keybindings hd
  constructor
  · intro v hm hf
    unfold transition_state
    rw [if_neg p1, if_neg p2, if_neg p3, if_neg p4, if_neg p5, if_neg p6, if_neg p7,
      if_pos rfl, if_neg (by simp [hm]), if_pos (by simp [App.is_at_bottom, hm]), hf]
  · intro hm
    unfold transition_state
    rw [if_neg p1, if_neg p2, if_neg p3, if_neg p4, if_neg p5, if_neg p6, if_neg p7,
      if_pos rfl, if_pos hm]

/-- Witness for C3: peeking the leaf `.l.0` while Bottom returns `"my"`;
peeking from Normal mode enters Peeking. -/
theorem C3_witness :
    transition_state (Key.char 'p') test_config
        ⟨[PathMember.string "l" false, PathMember.int 0 false], Mode.Bottom,
          Editor.default⟩ test_value =
      some (⟨[PathMember.string "l" false, PathMember.int 0 false], Mode.Bottom,
        Editor.default⟩, TransitionResult.Return (Value.string "my")) :=
  (C3_peek_key (Key.char 'p') test_config
    ⟨[PathMember.string "l" false, PathMember.int 0 false], Mode.Bottom, Editor.default⟩
    test_value (by decide) rfl).1 (Value.string "my") rfl rfl

/-- **C4**: while Bottom, `left` returns to Normal with the path unchanged, and
`up`/`down` change neither the path nor the mode. -/
theorem C4_bottom_navigation (config : Config) (app : App) (value : Value)
    (hd : config.keybindings.distinct) (hm : app.mode = Mode.Bottom) :
    transition_state config.keybindings.navigation.left config app value =
      some ({ app with mode := Mode.Normal }, TransitionResult.Continue) ∧
    transition_state config.keybindings.navigation.up config app value =
      some (app, TransitionResult.Continue) ∧
    transition_state config.keybindings.navigation.down config app value =
      some (app, TransitionResult.Continue) := by
  refine ⟨?_, ?_, ?_⟩
  · obtain ⟨l1, l2, l3, l4, l5, l6⟩ := distinct_left config.keybindings hd
    unfold transition_state
    rw [if_neg l1, if_neg l2, if_neg l3, if_neg l4, if_neg l5, if_neg l6, if_pos rfl,
      if_neg (by simp [hm]), if_pos (by simp [App.is_at_bottom, hm])]
  · obtain ⟨u1, u2, u3, u4⟩ := distinct_up config.keybindings hd
    unfold transition_state
    rw [if_neg u1, if_neg u2, if_neg u3, if_neg u4, if_pos rfl, if_neg (by simp [hm])]
    unfold transition_fallthrough
    rw [if_neg (by simp [hm]), if_neg (by simp [hm])]
  · obtain ⟨d1, d2, d3⟩ := distinct_down config.keybindings hd
    unfold transition_state
    rw [if_neg d1, if_neg d2, if_neg d3, if_pos rfl, if_neg (by simp [hm])]
    unfold transition_fallthrough
    rw [if_neg (by simp [hm]), if_neg (by simp [hm])]

/-- Witness for C4: `left` at Bottom on `.r.a` goes back to Normal at `.r.a`. -/
theorem C4_witness :
    transition_state (Key.char 'h') test_config
        ⟨[PathMember.string "r" false, PathMember.string "a" false], Mode.Bottom,
          Editor.default⟩ test_value =
      some (⟨[PathMember.string "r" false, PathMember.string "a" false], Mode.Normal,
        Editor.default⟩, TransitionResult.Continue) :=
  (C4_bottom_navigation test_config
    ⟨[PathMember.string "r" false, PathMember.string "a" false], Mode.Bottom,
      Editor.default⟩ test_value (by decide) rfl).1

/-- **C7**: pressing peek in Normal mode and then the `under` sub-key returns
exactly the value resolved at `cell_path` before peek was pressed: the first
step only changes the mode to Peeking (path untouched) and the second returns
that same resolved value without changing the state. -/
theorem C7_peek_then_under (config : Config) (app : App) (value v : Value)
    (hd : config.keybindings.distinct) (hm : app.mode = Mode.Normal)
    (hf : follow_cell_path value app.cell_path = some v) :
    transition_state config.keybindings.peek config app value =
      some ({ app with mode := Mode.Peeking }, TransitionResult.Continue) ∧
    transition_state config.keybindings.peeking.under config
        { app with mode := Mode.Peeking } value =
      some ({ app with mode := Mode.Peeking }, TransitionResult.Return v) := by
  constructor
  · obtain ⟨p1, p2, p3, p4, p5, p6, p7⟩ := distinct_peek config.keybindings hd
    unfold transition_state
    rw [if_neg p1, if_neg p2, if_neg p3, if_neg p4, if_neg p5, if_neg p6, if_neg p7,
      if_pos rfl, if_pos hm]
  · obtain ⟨u1, u2, u3, u4, u5, u6, u7, u8, u9, u10⟩ := distinct_under config.keybindings hd
    unfold transition_state
    rw [if_neg u1, if_neg u2, if_neg u3, if_neg u4, if_neg u5, if_neg u6, if_neg u7,
      if_neg u8]
    unfold transition_fallthrough
    rw [if_pos rfl, if_neg u3, if_neg u9, if_neg u10, if_pos rfl]
    have hf' : follow_cell_path value
        ({ app with mode := Mode.Peeking } : App).cell_path = some v := hf
    rw [hf']

/-- Witness for C7: peek then `under` on `.r.a` returns `1`. -/
theorem C7_witness :
    transition_state (Key.char 'p') test_config
        ⟨[PathMember.string "r" false, PathMember.string "a" false], Mode.Normal,
          Editor.default⟩ test_value =
      some (⟨[PathMember.string "r" false, PathMember.string "a" false], Mode.Peeking,
        Editor.default⟩, TransitionResult.Continue) ∧
    transition_state (Key.char 'u') test_config
        ⟨[PathMember.string "r" false, PathMember.string "a" false], Mode.Peeking,
          Editor.default⟩ test_value =
      some (⟨[PathMember.string "r" false, PathMember.string "a" false], Mode.Peeking,
        Editor.default⟩, TransitionResult.Return (Value.int 1)) :=
  C7_peek_then_under test_config
    ⟨[PathMember.string "r" false, PathMember.string "a" false], Mode.Normal,
      Editor.default⟩ test_value (Value.int 1) (by decide) rfl rfl

/-- **C8**: in Peeking mode the `view` sub-key pops the last path member and
returns the value resolved at the shortened path (one level above the current
selection; the whole tree when the path had depth 1). -/
theorem C8_peeking_view (config : Config) (app : App) (value v : Value)
    (hd : config.keybindings.distinct) (hm : app.mode = Mode.Peeking)
    (hf : follow_cell_path value app.cell_path.dropLast = some v) :
    transition_state config.keybindings.peeking.view config app value =
      some ({ app with cell_path := app.cell_path.dropLast },
        TransitionResult.Return v) := by
  obtain ⟨v1, v2, v3, v4, v5, v6, v7, v8, v9⟩ := distinct_view config.keybindings hd
  unfold transition_state
  rw [if_neg v1, if_neg v2, if_neg v3, if_neg v4, if_neg v5, if_neg v6, if_neg v7,
    if_neg v8]
  unfold transition_fallthrough
  rw [if_pos hm, if_neg v3, if_neg v9, if_pos rfl, hf]

/-- Witness for C8: `view` while Peeking at `.r.a` returns the record
`{a: 1, b: 2}`. -/
theorem C8_witness :
    transition_state (Key.char 'v') test_config
        ⟨[PathMember.string "r" false, PathMember.string "a" false], Mode.Peeking,
          Editor.default⟩ test_value =
      some (⟨[PathMember.string "r" false], Mode.Peeking, Editor.default⟩,
        TransitionResult.Return (Value.record ["a", "b"] [Value.int 1, Value.int 2])) :=
  C8_peeking_view test_config
    ⟨[PathMember.string "r" false, PathMember.string "a" false], Mode.Peeking,
      Editor.default⟩ test_value (Value.record ["a", "b"] [Value.int 1, Value.int 2])
    (by decide) rfl rfl

/-- **C9**: when `cell_path` fully resolves against the current tree (the §3
cell-path invariant), `transition_state` never fails: every internal path
resolution (insert branch, peek-at-bottom, peeking `view`/`under`) succeeds
for every key, keybinding table and mode. -/
theorem C9_no_resolution_failure (key : Key) (config : Config) (app : App)
    (value w : Value) (hw : follow_cell_path value app.cell_path = some w) :
    (transition_state key config app value).isSome := by
  have hpre := follow_cell_path_dropLast_isSome value w app.cell_path hw
  have hft : (transition_fallthrough key config app value).isSome := by
    unfold transition_fallthrough
    repeat' split
    all_goals simp_all
  unfold transition_state
  by_cases h1 : key = config.keybindings.quit
  · rw [if_pos h1]
    split
    · simp
    · exact hft
  rw [if_neg h1]
  by_cases h2 : key = config.keybindings.insert
  · rw [if_pos h2]
    split
    · rw [hw]
      cases w <;> simp
    · exact hft
  rw [if_neg h2]
  by_cases h3 : key = config.keybindings.normal
  · rw [if_pos h3]
    split
    · simp
    · exact hft
  rw [if_neg h3]
  by_cases h4 : key = config.keybindings.navigation.down
  · rw [if_pos h4]
    split
    · simp
    · exact hft
  rw [if_neg h4]
  by_cases h5 : key = config.keybindings.navigation.up
  · rw [if_pos h5]
    split
    · simp
    · exact hft
  rw [if_neg h5]
  by_cases h6 : key = config.keybindings.navigation.right
  · rw [if_pos h6]
    split
    · simp
    · exact hft
  rw [if_neg h6]
  by_cases h7 : key = config.keybindings.navigation.left
  · rw [if_pos h7]
    split
    · simp
    · split
      · simp
      · exact hft
  rw [if_neg h7]
  by_cases h8 : key = config.keybindings.peek
  · rw [if_pos h8]
    split
    · simp
    · split
      · rw [hw]
        simp
      · exact hft
  rw [if_neg h8]
  exact hft

/-- Witness for C9: with the resolvable path `.r.a`, the transition for the
`view` key (which pops and re-resolves) succeeds. -/
theorem C9_witness :
    (transition_state (Key.char 'v') test_config
      ⟨[PathMember.string "r" false, PathMember.string "a" false], Mode.Peeking,
        Editor.default⟩ test_value).isSome :=
  C9_no_resolution_failure (Key.char 'v') test_config
    ⟨[PathMember.string "r" false, PathMember.string "a" false], Mode.Peeking,
      Editor.default⟩ test_value (Value.int 1) rfl

/-- **C6 (counterexample)**: with the tree `[1]` and an App in Normal mode
whose `cell_path` is empty (depth 0), `right` appends `Index(0)` but `left`
refuses to pop a depth-1 path, so right-then-left does not restore the
pre-`right` path; the claim quantified over every Normal-mode App is false. -/
theorem C6_counterexample :
    (App.default.mode = Mode.Normal ∧
      App.default.is_at_bottom = false ∧
      (go_back_in_data (go_deeper_in_data App.default
          (Value.list [Value.int 1]))).cell_path ≠ App.default.cell_path) ∧
    (go_back_in_data (go_deeper_in_data
        ⟨[PathMember.int 0 false, PathMember.int 0 false], Mode.Normal,
          Editor.default⟩ (Value.list [Value.int 1]))).cell_path ≠
      [PathMember.int 0 false, PathMember.int 0 false] := by
  refine ⟨⟨rfl, rfl, ?_⟩, ?_⟩ <;> decide

/-- **C6 (amended)**: for every App in Normal mode whose `cell_path` is
non-empty and resolves against the tree, `right` followed immediately by
`left` restores the pre-`right` `cell_path` exactly — both when `right`
descended into a container (of any size) and when it hit a leaf or empty
container and only set Bottom. -/
theorem C6_right_then_left (app : App) (value w : Value)
    (hm : app.mode = Mode.Normal) (hne : app.cell_path ≠ [])
    (hf : follow_cell_path value app.cell_path = some w) :
    (go_back_in_data (go_deeper_in_data app value)).cell_path = app.cell_path := by
  have hback : (go_back_in_data app.hit_bottom).cell_path = app.cell_path := by
    unfold go_back_in_data App.hit_bottom App.is_at_bottom
    simp
  have happend : ∀ m : PathMember,
      (go_back_in_data { app with cell_path := app.cell_path ++ [m] }).cell_path =
        app.cell_path := by
    intro m
    unfold go_back_in_data
    rw [if_neg (by simp [App.is_at_bottom, hm])]
    rw [if_pos (by
      rw [List.length_append]
      have := List.length_pos.mpr hne
      simp only [List.length_singleton]
      omega)]
    exact List.dropLast_concat
  unfold go_deeper_in_data
  rw [if_neg (by simp [App.is_at_bottom, hm]), hf]
  cases w with
  | list vals => by_cases hv : vals.isEmpty <;> simp [hv, hback, happend]
  | record cols vals => by_cases hv : cols.isEmpty <;> simp [hv, hback, happend]
  | nothing => exact hback
  | bool b => exact hback
  | int i => exact hback
  | string s => exact hback
  | cellPath m => exact hback

/-- Witness for C6: right from `.r` descends to `.r.a`, left returns to `.r`. -/
theorem C6_witness :
    (go_back_in_data (go_deeper_in_data
        ⟨[PathMember.string "r" false], Mode.Normal, Editor.default⟩
        test_value)).cell_path = [PathMember.string "r" false] :=
  C6_right_then_left ⟨[PathMember.string "r" false], Mode.Normal, Editor.default⟩
    test_value (Value.record ["a", "b"] [Value.int 1, Value.int 2])
    rfl (by decide) rfl

/-! ### The sibling cycle -/

theorem index_of_key_getD (cols : List String) (hnd : cols.Nodup) (p : Nat)
    (hp : p < cols.length) : index_of_key cols (cols.getD p "") = some p := by
  induction cols generalizing p with
  | nil => simp at hp
  | cons c cs ih =>
    cases p with
    | zero => simp [index_of_key]
    | succ q =>
      have hq : q < cs.length := by simpa using hp
      have hmem : cs.getD q "" ∈ cs := by
        rw [List.getD_eq_getElem cs "" hq]
        exact List.getElem_mem hq
      have hne : c ≠ cs.getD q "" := by
        intro e
        exact (List.nodup_cons.mp hnd).1 (e ▸ hmem)
      rw [List.getD_cons_succ]
      unfold index_of_key
      rw [if_neg hne, ih (List.nodup_cons.mp hnd).2 q hq]
      rfl

theorem down_step_list (app : App) (value : Value) (vals : List Value)
    (pre : List PathMember) (i : Nat) (hm : app.mode = Mode.Normal)
    (hp : follow_cell_path value pre = some (Value.list vals)) (hi : i < vals.length)
    (hpath : app.cell_path = pre ++ [PathMember.int i false]) :
    go_up_or_down_in_data app value Direction.Down =
      { app with cell_path := pre ++ [PathMember.int ((i + 1) % vals.length) false] } := by
  unfold go_up_or_down_in_data
  rw [if_neg (by simp [App.is_at_bottom, hm]), hpath, List.getLast?_concat,
    List.dropLast_concat, hp]
  show (if vals.length ≤ 1 then app
    else if i < vals.length then
      { app with cell_path := pre ++ [PathMember.int ((i + 1) % vals.length) false] }
    else app) = _
  by_cases hn : vals.length ≤ 1
  · rw [if_pos hn]
    have hn1 : vals.length = 1 := by omega
    have hi0 : i = 0 := by omega
    subst hi0
    rw [hn1]
    show app = { app with cell_path := pre ++ [PathMember.int 0 false] }
    rw [← hpath]
  · rw [if_neg hn, if_pos hi]

theorem down_step_record (app : App) (value : Value) (cols : List String)
    (vals : List Value) (pre : List PathMember) (p : Nat)
    (hm : app.mode = Mode.Normal) (hnd : cols.Nodup)
    (hp : follow_cell_path value pre = some (Value.record cols vals))
    (hpl : p < cols.length)
    (hpath : app.cell_path = pre ++ [PathMember.string (cols.getD p "") false]) :
    go_up_or_down_in_data app value Direction.Down =
      { app with cell_path :=
          pre ++ [PathMember.string (cols.getD ((p + 1) % cols.length) "") false] } := by
  unfold go_up_or_down_in_data
  rw [if_neg (by simp [App.is_at_bottom, hm]), hpath, List.getLast?_concat,
    List.dropLast_concat, hp]
  show (if cols.length ≤ 1 then app
    else match index_of_key cols (cols.getD p "") with
      | none => app
      | some q =>
        { app with cell_path :=
            pre ++ [PathMember.string (cols.getD ((q + 1) % cols.length) "") false] }) = _
  by_cases hn : cols.length ≤ 1
  · rw [if_pos hn]
    have hn1 : cols.length = 1 := by omega
    have hp0 : p = 0 := by omega
    subst hp0
    rw [hn1]
    show app = { app with cell_path := pre ++ [PathMember.string (cols.getD 0 "") false] }
    rw [← hpath]
  · rw [if_neg hn, index_of_key_getD cols hnd p hpl]

theorem downs_zero (value : Value) (app : App) : downs value 0 app = app := rfl

theorem downs_succ (value : Value) (k : Nat) (app : App) :
    downs value (k + 1) app =
      downs value k (go_up_or_down_in_data app value Direction.Down) := rfl

theorem downs_list (value : Value) (vals : List Value) (pre : List PathMember)
    (hp : follow_cell_path value pre = some (Value.list vals)) (k : Nat) :
    ∀ (app : App) (i : Nat), app.mode = Mode.Normal → i < vals.length →
      app.cell_path = pre ++ [PathMember.int i false] →
      downs value k app =
        { app with cell_path := pre ++ [PathMember.int ((i + k) % vals.length) false] } := by
  induction k with
  | zero =>
    intro app i hm hi hpath
    rw [downs_zero, Nat.add_zero, Nat.mod_eq_of_lt hi, ← hpath]
  | succ k ih =>
    intro app i hm hi hpath
    rw [downs_succ, down_step_list app value vals pre i hm hp hi hpath]
    have hlen : 0 < vals.length := by omega
    rw [ih { app with cell_path := pre ++ [PathMember.int ((i + 1) % vals.length) false] }
      ((i + 1) % vals.length) hm (Nat.mod_lt _ hlen) rfl]
    have he : ((i + 1) % vals.length + k) % vals.length = (i + (k + 1)) % vals.length := by
      rw [Nat.mod_add_mod]
      congr 1
      omega
    rw [he]

theorem downs_record (value : Value) (cols : List String) (vals : List Value)
    (pre : List PathMember) (hnd : cols.Nodup)
    (hp : follow_cell_path value pre = some (Value.record cols vals)) (k : Nat) :
    ∀ (app : App) (p : Nat), app.mode = Mode.Normal → p < cols.length →
      app.cell_path = pre ++ [PathMember.string (cols.getD p "") false] →
      downs value k app =
        { app with cell_path :=
            pre ++ [PathMember.string (cols.getD ((p + k) % cols.length) "") false] } := by
  induction k with
  | zero =>
    intro app p hm hpl hpath
    rw [downs_zero, Nat.add_zero, Nat.mod_eq_of_lt hpl, ← hpath]
  | succ k ih =>
    intro app p hm hpl hpath
    rw [downs_succ, down_step_record app value cols vals pre p hm hnd hp hpl hpath]
    have hlen : 0 < cols.length := by omega
    rw [ih { app with cell_path :=
        pre ++ [PathMember.string (cols.getD ((p + 1) % cols.length) "") false] }
      ((p + 1) % cols.length) hm (Nat.mod_lt _ hlen) rfl]
    have he : ((p + 1) % cols.length + k) % cols.length = (p + (k + 1)) % cols.length := by
      rw [Nat.mod_add_mod]
      congr 1
      omega
    rw [he]

/-- **C5**: for any non-empty container with `n` children reached by the
prefix of the path, and a Normal-mode App whose last member selects one of
those children, applying `down` exactly `n` times yields the original
`cell_path` again: the sibling cycle is a closed ring. -/
theorem C5_sibling_cycle_closed (value parent : Value) (pre : List PathMember)
    (app : App) (hm : app.mode = Mode.Normal)
    (hp : follow_cell_path value pre = some parent) :
    (∀ vals i, parent = Value.list vals → i < vals.length →
      app.cell_path = pre ++ [PathMember.int i false] →
      (downs value vals.length app).cell_path = app.cell_path) ∧
    (∀ cols vals k, parent = Value.record cols vals → cols.Nodup → k ∈ cols →
      app.cell_path = pre ++ [PathMember.string k false] →
      (downs value cols.length app).cell_path = app.cell_path) := by
  constructor
  · rintro vals i rfl hi hpath
    rw [downs_list value vals pre hp vals.length app i hm hi hpath]
    show pre ++ [PathMember.int ((i + vals.length) % vals.length) false] = app.cell_path
    rw [Nat.add_mod_right, Nat.mod_eq_of_lt hi]
    exact hpath.symm
  · rintro cols vals k rfl hnd hk hpath
    obtain ⟨⟨p, hpl⟩, hget⟩ := List.mem_iff_get.mp hk
    have hgd : cols.get ⟨p, hpl⟩ = cols.getD p "" := by
      rw [List.getD_eq_getElem cols "" hpl]
      rfl
    subst hget
    rw [hgd] at hpath
    rw [downs_record value cols vals pre hnd hp cols.length app p hm hpl hpath]
    show pre ++
        [PathMember.string (cols.getD ((p + cols.length) % cols.length) "") false] =
      app.cell_path
    rw [Nat.add_mod_right, Nat.mod_eq_of_lt hpl]
    exact hpath.symm

/-- Witness for C5: the fixture record has four columns and cycling `down`
four times from `.l` returns to `.l`. -/
theorem C5_witness :
    (downs test_value 4 (App.from_value test_value)).cell_path =
      (App.from_value test_value).cell_path :=
  (C5_sibling_cycle_closed test_value test_value [] (App.from_value test_value)
    rfl rfl).2 ["l", "r", "s", "i"]
    [.list [.string "my", .string "list", .string "elements"],
     .record ["a", "b"] [.int 1, .int 2],
     .string "some string",
     .int 123] "l" rfl (by decide) (by decide) rfl

/-! ### The Bottom-mode invariant -/

theorem some_pair_inj {α β : Type} {a c : α} {b d : β}
    (h : some (a, b) = some (c, d)) : a = c ∧ b = d := by
  injection h with h'
  exact ⟨congrArg Prod.fst h', congrArg Prod.snd h'⟩

theorem handle_key_mode (e : Editor) (key : Key) (e' : Editor) (m : Mode)
    (o : Option Value) (h : e.handle_key key = (e', some (m, o))) : m = Mode.Normal := by
  unfold Editor.handle_key at h
  cases key
  case backspace =>
    by_cases hc : e.cursor = 0
    · rw [if_pos hc] at h
      simp_all
    · rw [if_neg hc] at h
      simp_all
  all_goals simp_all

theorem go_up_or_down_mode (app : App) (value : Value) (d : Direction) :
    (go_up_or_down_in_data app value d).mode = app.mode := by
  unfold go_up_or_down_in_data
  repeat' split
  all_goals rfl

theorem go_up_or_down_bottom (app : App) (value : Value) (d : Direction)
    (hb : app.is_at_bottom = true) : go_up_or_down_in_data app value d = app := by
  unfold go_up_or_down_in_data
  rw [if_pos hb]

theorem go_up_or_down_inv (value : Value) (app : App) (d : Direction)
    (hI : BottomInv value app) : BottomInv value (go_up_or_down_in_data app value d) := by
  by_cases hb : app.is_at_bottom = true
  · rw [go_up_or_down_bottom app value d hb]
    exact hI
  · intro hbot
    rw [go_up_or_down_mode] at hbot
    exact absurd (by simp [App.is_at_bottom, hbot]) hb

theorem go_deeper_inv (value : Value) (app : App) (hI : BottomInv value app) :
    BottomInv value (go_deeper_in_data app value) := by
  unfold go_deeper_in_data
  by_cases hb : app.is_at_bottom = true
  · rw [if_pos hb]
    exact hI
  · rw [if_neg hb]
    cases hf : follow_cell_path value app.cell_path with
    | none => exact hI
    | some current =>
      cases current with
      | list vals =>
        show BottomInv value
          (if vals.isEmpty = true then app.hit_bottom
           else { app with cell_path := app.cell_path ++ [PathMember.int 0 false] })
        by_cases hv : vals.isEmpty = true
        · rw [if_pos hv]
          intro _
          exact ⟨Value.list vals, hf, by simp [Value.is_scalar_or_empty, hv]⟩
        · rw [if_neg hv]
          intro hbot
          have hbot' : app.mode = Mode.Bottom := hbot
          exact absurd (by simp [App.is_at_bottom, hbot']) hb
      | record cols vals =>
        show BottomInv value
          (if cols.isEmpty = true then app.hit_bottom
           else { app with
              cell_path := app.cell_path ++ [PathMember.string (cols.getD 0 "") false] })
        by_cases hv : cols.isEmpty = true
        · rw [if_pos hv]
          intro _
          exact ⟨Value.record cols vals, hf, by simp [Value.is_scalar_or_empty, hv]⟩
        · rw [if_neg hv]
          intro hbot
          have hbot' : app.mode = Mode.Bottom := hbot
          exact absurd (by simp [App.is_at_bottom, hbot']) hb
      | nothing => intro _; exact ⟨Value.nothing, hf, rfl⟩
      | bool b => intro _; exact ⟨Value.bool b, hf, rfl⟩
      | int i => intro _; exact ⟨Value.int i, hf, rfl⟩
      | string s => intro _; exact ⟨Value.string s, hf, rfl⟩
      | cellPath m => intro _; exact ⟨Value.cellPath m, hf, rfl⟩

theorem go_back_inv (value : Value) (app : App) (hI : BottomInv value app) :
    BottomInv value (go_back_in_data app) := by
  unfold go_back_in_data
  by_cases hb : app.is_at_bottom = true
  · rw [if_pos hb]
    intro hbot
    exact Mode.noConfusion hbot
  · rw [if_neg hb]
    split
    · intro hbot
      have hbot' : app.mode = Mode.Bottom := hbot
      exact absurd (by simp [App.is_at_bottom, hbot']) hb
    · exact hI

theorem transition_fallthrough_inv (key : Key) (config : Config) (app app' : App)
    (value : Value) (r : TransitionResult)
    (hs : transition_fallthrough key config app value = some (app', r))
    (hI : BottomInv value app) : BottomInv value app' := by
  unfold transition_fallthrough at hs
  by_cases h1 : app.mode = Mode.Peeking
  · rw [if_pos h1] at hs
    by_cases h2 : key = config.keybindings.normal
    · rw [if_pos h2] at hs
      obtain ⟨rfl, rfl⟩ := some_pair_inj hs
      intro hbot
      exact Mode.noConfusion hbot
    · rw [if_neg h2] at hs
      by_cases h3 : key = config.keybindings.peeking.all
      · rw [if_pos h3] at hs
        obtain ⟨rfl, rfl⟩ := some_pair_inj hs
        exact hI
      · rw [if_neg h3] at hs
        by_cases h4 : key = config.keybindings.peeking.view
        · rw [if_pos h4] at hs
          cases hfv : follow_cell_path value app.cell_path.dropLast with
          | none => rw [hfv] at hs; exact absurd hs (by simp)
          | some v =>
            rw [hfv] at hs
            obtain ⟨rfl, rfl⟩ := some_pair_inj hs
            intro hbot
            have hbot' : app.mode = Mode.Bottom := hbot
            rw [h1] at hbot'
            exact Mode.noConfusion hbot'
        · rw [if_neg h4] at hs
          by_cases h5 : key = config.keybindings.peeking.under
          · rw [if_pos h5] at hs
            cases hfv : follow_cell_path value app.cell_path with
            | none => rw [hfv] at hs; exact absurd hs (by simp)
            | some v =>
              rw [hfv] at hs
              obtain ⟨rfl, rfl⟩ := some_pair_inj hs
              exact hI
          · rw [if_neg h5] at hs
            by_cases h6 : key = config.keybindings.peeking.cell_path
            · rw [if_pos h6] at hs
              obtain ⟨rfl, rfl⟩ := some_pair_inj hs
              exact hI
            · rw [if_neg h6] at hs
              obtain ⟨rfl, rfl⟩ := some_pair_inj hs
              exact hI
  · rw [if_neg h1] at hs
    by_cases h2 : app.mode = Mode.Insert
    · rw [if_pos h2] at hs
      rcases hk : app.editor.handle_key key with ⟨e, o⟩
      rw [hk] at hs
      match o with
      | some (m, some v) =>
        have hm := handle_key_mode app.editor key e m (some v) hk
        obtain ⟨rfl, rfl⟩ := some_pair_inj hs
        intro hbot
        have hbot' : m = Mode.Bottom := hbot
        rw [hm] at hbot'
        exact Mode.noConfusion hbot'
      | some (m, none) =>
        have hm := handle_key_mode app.editor key e m none hk
        obtain ⟨rfl, rfl⟩ := some_pair_inj hs
        intro hbot
        have hbot' : m = Mode.Bottom := hbot
        rw [hm] at hbot'
        exact Mode.noConfusion hbot'
      | none =>
        obtain ⟨rfl, rfl⟩ := some_pair_inj hs
        intro hbot
        have hbot' : app.mode = Mode.Bottom := hbot
        rw [h2] at hbot'
        exact Mode.noConfusion hbot'
    · rw [if_neg h2] at hs
      obtain ⟨rfl, rfl⟩ := some_pair_inj hs
      exact hI

theorem transition_state_inv (key : Key) (config : Config) (app app' : App)
    (value : Value) (r : TransitionResult)
    (hs : transition_state key config app value = some (app', r))
    (hI : BottomInv value app) : BottomInv value app' := by
  unfold transition_state at hs
  by_cases h1 : key = config.keybindings.quit
  · rw [if_pos h1] at hs
    by_cases hm1 : app.mode ≠ Mode.Insert
    · rw [if_pos hm1] at hs
      obtain ⟨rfl, rfl⟩ := some_pair_inj hs
      exact hI
    · rw [if_neg hm1] at hs
      exact transition_fallthrough_inv key config app app' value r hs hI
  rw [if_neg h1] at hs
  by_cases h2 : key = config.keybindings.insert
  · rw [if_pos h2] at hs
    by_cases hm : app.mode = Mode.Normal
    · rw [if_pos hm] at hs
      cases hf : follow_cell_path value app.cell_path with
      | none => rw [hf] at hs; exact absurd hs (by simp)
      | some v =>
        rw [hf] at hs
        cases v with
        | string s =>
          obtain ⟨rfl, rfl⟩ := some_pair_inj hs
          intro hbot
          exact Mode.noConfusion hbot
        | nothing => obtain ⟨rfl, rfl⟩ := some_pair_inj hs; exact hI
        | bool b => obtain ⟨rfl, rfl⟩ := some_pair_inj hs; exact hI
        | int i => obtain ⟨rfl, rfl⟩ := some_pair_inj hs; exact hI
        | list vs => obtain ⟨rfl, rfl⟩ := some_pair_inj hs; exact hI
        | record cs vls => obtain ⟨rfl, rfl⟩ := some_pair_inj hs; exact hI
        | cellPath ms => obtain ⟨rfl, rfl⟩ := some_pair_inj hs; exact hI
    · rw [if_neg hm] at hs
      exact transition_fallthrough_inv key config app app' value r hs hI
  rw [if_neg h2] at hs
  by_cases h3 : key = config.keybindings.normal
  · rw [if_pos h3] at hs
    by_cases hm : app.mode = Mode.Insert
    · rw [if_pos hm] at hs
      obtain ⟨rfl, rfl⟩ := some_pair_inj hs
      intro hbot
      exact Mode.noConfusion hbot
    · rw [if_neg hm] at hs
      exact transition_fallthrough_inv key config app app' value r hs hI
  rw [if_neg h3] at hs
  by_cases h4 : key = config.keybindings.navigation.down
  · rw [if_pos h4] at hs
    by_cases hm : app.mode = Mode.Normal
    · rw [if_pos hm] at hs
      obtain ⟨rfl, rfl⟩ := some_pair_inj hs
      exact go_up_or_down_inv value app Direction.Down hI
    · rw [if_neg hm] at hs
      exact transition_fallthrough_inv key config app app' value r hs hI
  rw [if_neg h4] at hs
  by_cases h5 : key = config.keybindings.navigation.up
  · rw [if_pos h5] at hs
    by_cases hm : app.mode = Mode.Normal
    · rw [if_pos hm] at hs
      obtain ⟨rfl, rfl⟩ := some_pair_inj hs
      exact go_up_or_down_inv value app Direction.Up hI
    · rw [if_neg hm] at hs
      exact transition_fallthrough_inv key config app app' value r hs hI
  rw [if_neg h5] at hs
  by_cases h6 : key = config.keybindings.navigation.right
  · rw [if_pos h6] at hs
    by_cases hm : app.mode = Mode.Normal
    · rw [if_pos hm] at hs
      obtain ⟨rfl, rfl⟩ := some_pair_inj hs
      exact go_deeper_inv value app hI
    · rw [if_neg hm] at hs
      exact transition_fallthrough_inv key config app app' value r hs hI
  rw [if_neg h6] at hs
  by_cases h7 : key = config.keybindings.navigation.left
  · rw [if_pos h7] at hs
    by_cases hm : app.mode = Mode.Normal
    · rw [if_pos hm] at hs
      obtain ⟨rfl, rfl⟩ := some_pair_inj hs
      exact go_back_inv value app hI
    · rw [if_neg hm] at hs
      by_cases hbb : app.is_at_bottom = true
      · rw [if_pos hbb] at hs
        obtain ⟨rfl, rfl⟩ := some_pair_inj hs
        intro hbot
        exact Mode.noConfusion hbot
      · rw [if_neg hbb] at hs
        exact transition_fallthrough_inv key config app app' value r hs hI
  rw [if_neg h7] at hs
  by_cases h8 : key = config.keybindings.peek
  · rw [if_pos h8] at hs
    by_cases hm : app.mode = Mode.Normal
    · rw [if_pos hm] at hs
      obtain ⟨rfl, rfl⟩ := some_pair_inj hs
      intro hbot
      exact Mode.noConfusion hbot
    · rw [if_neg hm] at hs
      by_cases hbb : app.is_at_bottom = true
      · rw [if_pos hbb] at hs
        cases hf : follow_cell_path value app.cell_path with
        | none => rw [hf] at hs; exact absurd hs (by simp)
        | some v =>
          rw [hf] at hs
          obtain ⟨rfl, rfl⟩ := some_pair_inj hs
          exact hI
      · rw [if_neg hbb] at hs
        exact transition_fallthrough_inv key config app app' value r hs hI
  rw [if_neg h8] at hs
  exact transition_fallthrough_inv key config app app' value r hs hI

theorem reachable_bottom_inv (value : Value) (app : App) (h : Reachable value app) :
    BottomInv value app := by
  induction h with
  | init =>
    intro hbot
    cases value <;> exact Mode.noConfusion hbot
  | step key config h hs ih =>
    exact transition_state_inv key config _ _ value _ hs ih

theorem go_deeper_bottom_iff (app : App) (value : Value) (hm : app.mode = Mode.Normal) :
    (go_deeper_in_data app value).mode = Mode.Bottom ↔
      ∃ v, follow_cell_path value app.cell_path = some v ∧
        v.is_scalar_or_empty = true := by
  unfold go_deeper_in_data
  rw [if_neg (by simp [App.is_at_bottom, hm])]
  cases hf : follow_cell_path value app.cell_path with
  | none =>
    show app.mode = Mode.Bottom ↔ _
    rw [hm]
    simp
  | some current =>
    cases current with
    | list vals =>
      show (if vals.isEmpty = true then app.hit_bottom
        else { app with
          cell_path := app.cell_path ++ [PathMember.int 0 false] }).mode = Mode.Bottom ↔ _
      by_cases hv : vals.isEmpty = true
      · rw [if_pos hv]
        constructor
        · intro _
          exact ⟨Value.list vals, rfl, by simp [Value.is_scalar_or_empty, hv]⟩
        · intro _
          rfl
      · rw [if_neg hv]
        constructor
        · intro hbot
          have hbot' : app.mode = Mode.Bottom := hbot
          rw [hm] at hbot'
          exact Mode.noConfusion hbot'
        · rintro ⟨v, hv2, hv3⟩
          obtain rfl := Option.some.inj hv2
          simp [Value.is_scalar_or_empty, hv] at hv3
    | record cols vals =>
      show (if cols.isEmpty = true then app.hit_bottom
        else { app with cell_path :=
          app.cell_path ++ [PathMember.string (cols.getD 0 "") false] }).mode =
            Mode.Bottom ↔ _
      by_cases hv : cols.isEmpty = true
      · rw [if_pos hv]
        constructor
        · intro _
          exact ⟨Value.record cols vals, rfl, by simp [Value.is_scalar_or_empty, hv]⟩
        · intro _
          rfl
      · rw [if_neg hv]
        constructor
        · intro hbot
          have hbot' : app.mode = Mode.Bottom := hbot
          rw [hm] at hbot'
          exact Mode.noConfusion hbot'
        · rintro ⟨v, hv2, hv3⟩
          obtain rfl := Option.some.inj hv2
          simp [Value.is_scalar_or_empty, hv] at hv3
    | nothing =>
      constructor
      · intro _
        exact ⟨Value.nothing, rfl, rfl⟩
      · intro _
        rfl
    | bool b =>
      constructor
      · intro _
        exact ⟨Value.bool b, rfl, rfl⟩
      · intro _
        rfl
    | int i =>
      constructor
      · intro _
        exact ⟨Value.int i, rfl, rfl⟩
      · intro _
        rfl
    | string s =>
      constructor
      · intro _
        exact ⟨Value.string s, rfl, rfl⟩
      · intro _
        rfl
    | cellPath ms =>
      constructor
      · intro _
        exact ⟨Value.cellPath ms, rfl, rfl⟩
      · intro _
        rfl

/-- **C1 (counterexample)**: immediately after `App::from_value` on the record
`{a: 1}` — a reachable state with zero transition steps — the node resolved by
`cell_path` is the scalar `1`, yet the mode is Normal, not Bottom; the claimed
"mode == Bottom iff scalar-or-empty" equivalence is false on reachable
states. -/
theorem C1_counterexample :
    Reachable (Value.record ["a"] [Value.int 1])
      (App.from_value (Value.record ["a"] [Value.int 1])) ∧
    (App.from_value (Value.record ["a"] [Value.int 1])).mode ≠ Mode.Bottom ∧
    follow_cell_path (Value.record ["a"] [Value.int 1])
      (App.from_value (Value.record ["a"] [Value.int 1])).cell_path =
        some (Value.int 1) ∧
    (Value.int 1).is_scalar_or_empty = true :=
  ⟨Reachable.init, by decide, rfl, rfl⟩

/-- **C1 (amended)**: in every App state reachable from `App::from_value` by
`transition_state` steps, `mode == Bottom` implies that the node resolved by
`cell_path` is a scalar or an empty container (the converse fails, see the
counterexample); and immediately after a `right` key in Normal mode the mode
is Bottom exactly when the node the `right` step resolved (at the pre-`right`
path, which `right` then leaves unchanged) is a scalar or an empty
container. -/
theorem C1_bottom_mode_invariant (value : Value) (app : App)
    (h : Reachable value app) :
    (app.mode = Mode.Bottom →
      ∃ v, follow_cell_path value app.cell_path = some v ∧
        v.is_scalar_or_empty = true) ∧
    (∀ (config : Config) (app' : App) (r : TransitionResult),
      config.keybindings.distinct → app.mode = Mode.Normal →
      transition_state config.keybindings.navigation.right config app value =
        some (app', r) →
      (app'.mode = Mode.Bottom ↔
        ∃ v, follow_cell_path value app.cell_path = some v ∧
          v.is_scalar_or_empty = true)) := by
  constructor
  · exact reachable_bottom_inv value app h
  · intro config app' r hd hm hs
    obtain ⟨r1, r2, r3, r4, r5⟩ := distinct_right config.keybindings hd
    unfold transition_state at hs
    rw [if_neg r1, if_neg r2, if_neg r3, if_neg r4, if_neg r5, if_pos rfl,
      if_pos hm] at hs
    obtain ⟨rfl, rfl⟩ := some_pair_inj hs
    exact go_deeper_bottom_iff app value hm

/-- Witness for C1: the Bottom state at `.l.0`, reached by two `right` steps
from `App::from_value` on the fixture, resolves to the scalar `"my"`. -/
theorem C1_witness :
    ∃ v, follow_cell_path test_value
        [PathMember.string "l" false, PathMember.int 0 false] = some v ∧
      v.is_scalar_or_empty = true :=
  (C1_bottom_mode_invariant test_value
    ⟨[PathMember.string "l" false, PathMember.int 0 false], Mode.Bottom,
      Editor.default⟩
    (Reachable.step (Key.char 'l') test_config
      (Reachable.step (Key.char 'l') test_config Reachable.init rfl) rfl)).1 rfl
